import Mathlib

/-!
Verification of the expression-DAG node model of this repository: the
reduction-norm nodes (src/casadi/mx/norm.cpp) and the nonzero-selection
(gather) nodes (src/symbolic/mx/getnonzeros.cpp), shallowly embedded in
Lean 4.  Machine doubles are modelled by an extended-rational domain `D`
with explicit infinities and a not-a-number element, following IEEE-754
arithmetic on exactly representable values; the generic (template)
gather evaluation is modelled polymorphically, exactly as the C++
template is.
-/

set_option autoImplicit false

/-- Model of an IEEE double value: an exact rational, one of the two
infinities, or not-a-number. -/
inductive D where
  | num (q : ℚ)
  | pinf
  | ninf
  | nan
deriving DecidableEq, Repr

namespace D

/-- IEEE negation. -/
def dneg : D → D
  | num q => num (-q)
  | pinf => ninf
  | ninf => pinf
  | nan => nan

/-- IEEE addition: nan propagates, opposite infinities give nan. -/
def dadd : D → D → D
  | nan, _ => nan
  | _, nan => nan
  | pinf, ninf => nan
  | ninf, pinf => nan
  | pinf, _ => pinf
  | _, pinf => pinf
  | ninf, _ => ninf
  | _, ninf => ninf
  | num a, num b => num (a + b)

/-- IEEE subtraction, as addition of the negation. -/
def dsub (a b : D) : D := dadd a (dneg b)

/-- IEEE multiplication: nan propagates, infinity times zero is nan. -/
def dmul : D → D → D
  | nan, _ => nan
  | _, nan => nan
  | num a, num b => num (a * b)
  | pinf, num b => if 0 < b then pinf else if b < 0 then ninf else nan
  | num a, pinf => if 0 < a then pinf else if a < 0 then ninf else nan
  | ninf, num b => if 0 < b then ninf else if b < 0 then pinf else nan
  | num a, ninf => if 0 < a then ninf else if a < 0 then pinf else nan
  | pinf, pinf => pinf
  | ninf, ninf => pinf
  | pinf, ninf => ninf
  | ninf, pinf => ninf

/-- IEEE division (the single rational zero standing for +0). -/
def ddiv : D → D → D
  | nan, _ => nan
  | _, nan => nan
  | num a, num b =>
    if b = 0 then (if 0 < a then pinf else if a < 0 then ninf else nan)
    else num (a / b)
  | num _, pinf => num 0
  | num _, ninf => num 0
  | pinf, num b => if 0 ≤ b then pinf else ninf
  | ninf, num b => if 0 ≤ b then ninf else pinf
  | pinf, pinf => nan
  | pinf, ninf => nan
  | ninf, pinf => nan
  | ninf, ninf => nan

/-- IEEE absolute value. -/
def dabs : D → D
  | num q => num |q|
  | pinf => pinf
  | ninf => pinf
  | nan => nan

/-- IEEE strict less-than: any comparison with nan is false. -/
def dlt : D → D → Bool
  | nan, _ => false
  | _, nan => false
  | num a, num b => decide (a < b)
  | num _, pinf => true
  | num _, ninf => false
  | pinf, _ => false
  | ninf, ninf => false
  | ninf, _ => true

/-- IEEE strict greater-than. -/
def dgt (a b : D) : Bool := dlt b a

/-- IEEE equality: nan compares unequal to everything, itself included. -/
def deq : D → D → Bool
  | num a, num b => decide (a = b)
  | pinf, pinf => true
  | ninf, ninf => true
  | _, _ => false

end D

/-! ## Generic gather node: GetNonzeros (src/symbolic/mx/getnonzeros.cpp)

`GetNonzeros::evaluateGen` is a C++ template over the scalar type `T`;
it is embedded as a polymorphic function.  Buffers are lists; the
absent sentinel of the index mapping `nz` is any negative entry. -/

/-- The nondifferentiated output / forward-sensitivity loop of
`GetNonzeros::evaluateGen` (getnonzeros.cpp lines 57-60 and 63-69):
writes, position by position, the dependency datum selected by the
mapping entry, or zero for an absent (negative) entry. -/
def gatherNZ {α : Type} (zero : α) (nz : List Int) (idata : List α) : List α :=
  nz.map (fun k => if 0 ≤ k then idata.getD k.toNat zero else zero)

/-- The adjoint-sensitivity loop of `GetNonzeros::evaluateGen`
(getnonzeros.cpp lines 72-79) for one adjoint direction: walking the
mapping and the adjoint-seed buffer together, each seed entry with a
valid mapping index is added into the sensitivity accumulator at that
index, and every visited seed entry is overwritten with zero.  Returns
the updated (seed, sensitivity) pair. -/
def addScatterNZ {α : Type} (add : α → α → α) (zero : α) :
    List Int → List α → List α → List α × List α
  | [], aseed, asens => (aseed, asens)
  | _ :: _, [], asens => ([], asens)
  | k :: nz, s :: aseed, asens =>
    let asens1 := if 0 ≤ k then asens.set k.toNat (add (asens.getD k.toNat zero) s) else asens
    let r := addScatterNZ add zero nz aseed asens1
    (zero :: r.1, r.2)

/-- Result buffers of one `GetNonzeros::evaluateGen` call. -/
structure GatherResult (α : Type) where
  output : List α
  fwdSens : List (List α)
  adjSeed : List (List α)
  adjSens : List (List α)
deriving DecidableEq, Repr

/-- Positional map carrying the position index, used to model in-place
writes of the directional buffer arrays. -/
def idxMap {α : Type} (f : Nat → α → α) : Nat → List α → List α
  | _, [] => []
  | i, a :: l => f i a :: idxMap f (i + 1) l

/-- `GetNonzeros::evaluateGen` (getnonzeros.cpp lines 48-80): the
nondifferentiated output is the gather of the dependency data; each of
the `nfwd = fwdSens.size()` forward directions receives the gather of
its forward seed; each of the `nadj = adjSeed.size()` adjoint
directions scatter-adds its seed into its sensitivity accumulator and
zeroes the seed. -/
def GetNonzeros.evaluateGen {α : Type} (add : α → α → α) (zero : α)
    (nz : List Int) (idata : List α)
    (fwdSeed fwdSens0 adjSeed adjSens0 : List (List α)) : GatherResult α :=
  { output := gatherNZ zero nz idata
    fwdSens := idxMap (fun d _ => gatherNZ zero nz (fwdSeed.getD d [])) 0 fwdSens0
    adjSeed := idxMap (fun d s => (addScatterNZ add zero nz s (adjSens0.getD d [])).1) 0 adjSeed
    adjSens := idxMap
      (fun d a => if d < adjSeed.length
        then (addScatterNZ add zero nz (adjSeed.getD d []) a).2 else a) 0 adjSens0 }

/-- `GetNonzeros::propagateSparsity`, forward direction (getnonzeros.cpp
lines 89-91), on bit-mask words: each output word is the input word at
the mapping entry, or zero for an absent entry.  Written independently
of the numeric path, to be compared with it. -/
def GetNonzeros.propagateSparsityFwd (nz : List Int) (inputd : List Nat) : List Nat :=
  nz.map (fun k => if 0 ≤ k then inputd.getD k.toNat 0 else 0)

/-- `GetNonzeros::propagateSparsity`, reverse direction (getnonzeros.cpp
lines 93-96), on bit-mask words: each output word is OR-ed into the
input word at the mapping entry when that entry is valid, and every
visited output word is cleared.  Returns the (output, input) pair. -/
def GetNonzeros.propagateSparsityRev :
    List Int → List Nat → List Nat → List Nat × List Nat
  | [], outputd, inputd => (outputd, inputd)
  | _ :: _, [], inputd => ([], inputd)
  | k :: nz, o :: outputd, inputd =>
    let inputd1 := if 0 ≤ k then inputd.set k.toNat (Nat.lor (inputd.getD k.toNat 0) o) else inputd
    let r := GetNonzeros.propagateSparsityRev nz outputd inputd1
    (0 :: r.1, r.2)

/-- Generic sequential scatter-accumulate over an arbitrary binary
operation: the common shape of the numeric adjoint loop and the reverse
sparsity-bit loop. -/
def scatterOp {α : Type} (op : α → α → α) (zero : α) :
    List Int → List α → List α → List α × List α
  | [], seed, sens => (seed, sens)
  | _ :: _, [], sens => ([], sens)
  | k :: nz, s :: seed, sens =>
    let sens1 := if 0 ≤ k then sens.set k.toNat (op (sens.getD k.toNat zero) s) else sens
    let r := scatterOp op zero nz seed sens1
    (zero :: r.1, r.2)

/-! ## Sparsity patterns and the GetNonzeros node head -/

/-- Compressed-row sparsity pattern, as compared by the code's pattern
equality: dimensions, column index list (one entry per nonzero) and
row-offset list. -/
structure CRSSparsity where
  nrow : Nat
  ncol : Nat
  col : List Nat
  rowind : List Nat
deriving DecidableEq, Repr

/-- The data of a GetNonzeros node that its structural predicates read:
its own sparsity pattern, its dependency's pattern, and the index
mapping `nz`. -/
structure GetNonzerosNode where
  sp : CRSSparsity
  depSp : CRSSparsity
  nz : List Int
deriving DecidableEq, Repr

/-- The scan of `GetNonzeros::isIdentity` (getnonzeros.cpp lines
274-276): succeeds exactly when each mapping entry equals its own
position, counting from the given start. -/
def nzCountsFrom : List Int → Nat → Bool
  | [], _ => true
  | k :: nz, i => k == (i : Int) && nzCountsFrom nz (i + 1)

/-- `GetNonzeros::isIdentity` (getnonzeros.cpp lines 268-280): the
sparsity patterns must compare equal and the mapping must be
0,1,2,... . -/
def GetNonzeros.isIdentity (g : GetNonzerosNode) : Bool :=
  if g.sp = g.depSp then nzCountsFrom g.nz 0 else false

/-- `GetNonzeros::getGetNonzeros` (getnonzeros.cpp lines 298-305):
building a gather of a gather flattens the two mappings, replacing each
requested index by this node's own mapping entry at that index.  The
C++ reads `nz_[*i]` without any bound or sign check; a requested index
outside the stored mapping is an out-of-bounds vector access, modelled
as `none`. -/
def GetNonzeros.getGetNonzeros (nzOwn : List Int) : List Int → Option (List Int)
  | [] => some []
  | i :: rest =>
    if 0 ≤ i ∧ i.toNat < nzOwn.length then
      match GetNonzeros.getGetNonzeros nzOwn rest with
      | some l => some (nzOwn.getD i.toNat 0 :: l)
      | none => none
    else none

/-! ## Symbolic differentiation entry of GetNonzeros: evaluateMX -/

/-- The input-nonzero counting loop opening `GetNonzeros::evaluateMX`
(getnonzeros.cpp lines 124-128): each mapping entry is asserted
nonnegative — `casadi_assert_message(*it>=0,"Not implemented")` — and
counted into the bucket of its input nonzero.  The assertion failure is
modelled as an error result, raised at the first offending entry. -/
def GetNonzeros.evaluateMXCount : List Int → List Nat → Except String (List Nat)
  | [], cnt => Except.ok cnt
  | k :: nz, cnt =>
    if 0 ≤ k then
      GetNonzeros.evaluateMXCount nz (cnt.set (k.toNat + 1) (cnt.getD (k.toNat + 1) 0 + 1))
    else Except.error "Not implemented"

/-- The in-place cumulative sum of `GetNonzeros::evaluateMX`
(getnonzeros.cpp lines 131-133). -/
def prefixAccum : List Nat → Nat → List Nat
  | [], _ => []
  | x :: l, acc => (x + acc) :: prefixAccum l (x + acc)

/-- The assignment-ordering loop of `GetNonzeros::evaluateMX`
(getnonzeros.cpp lines 136-140): scatters each output position into the
bucket of its input nonzero, bumping that bucket's offset. -/
def orderLoop : List Int → Nat → List Nat → List Nat → List Nat × List Nat
  | [], _, offs, order => (offs, order)
  | k :: nz, i, offs, order =>
    let j := offs.getD k.toNat 0
    orderLoop nz (i + 1) (offs.set k.toNat (j + 1)) (order.set j i)

/-- The preparatory phase of `GetNonzeros::evaluateMX` (getnonzeros.cpp
lines 122-140), which precedes the construction of every derivative
node in that function: count the mapping entries per input nonzero
(asserting each entry nonnegative), take offsets by cumulative sum, and
order the assignments by input.  `ninz` is the dependency's nonzero
count (`icol.size()`). -/
def GetNonzeros.evaluateMXPrep (nz : List Int) (ninz : Nat) :
    Except String (List Nat × List Nat) := do
  let cnt ← GetNonzeros.evaluateMXCount nz (List.replicate (ninz + 1) 0)
  let offs := prefixAccum cnt 0
  Except.ok (orderLoop nz 0 offs (List.replicate nz.length 0))

/-! ## Reduction norm nodes (src/casadi/mx/norm.cpp) -/

/-- The value accumulation of `Norm1::evaluate` (norm.cpp lines
154-156): sum of absolute values, left to right from zero. -/
def norm1Value (x : List D) : D :=
  x.foldl (fun acc xk => D.dadd acc (D.dabs xk)) (D.num 0)

/-- One forward direction of `Norm1::evaluate` (norm.cpp lines
161-173): entries with zero seed are skipped, negative entries
subtract the seed, positive entries add it, exact zeros contribute
not-a-number. -/
def norm1FwdDir (x fseed : List D) : D :=
  (x.zip fseed).foldl (fun acc p =>
    if D.deq p.2 (D.num 0) then acc
    else if D.dlt p.1 (D.num 0) then D.dsub acc p.2
    else if D.dgt p.1 (D.num 0) then D.dadd acc p.2
    else D.dadd acc D.nan) (D.num 0)

/-- One adjoint direction of `Norm1::evaluate` (norm.cpp lines
178-186): each sensitivity entry receives minus the seed, plus the
seed, or a not-a-number contribution according to the sign of the
dependency entry.  Entries of the buffer beyond the dependency length
are untouched. -/
def norm1AdjDir (x : List D) (s : D) (asens : List D) : List D :=
  ((x.zip asens).map (fun p =>
    if D.dlt p.1 (D.num 0) then D.dsub p.2 s
    else if D.dgt p.1 (D.num 0) then D.dadd p.2 s
    else D.dadd p.2 D.nan)) ++ asens.drop x.length

/-- `Norm1::evaluate` (norm.cpp lines 149-189).  With no derivative
directions at all, the output scalar is written with the 1-norm and the
call returns early; otherwise the output buffer is NOT written (the
value branch is skipped), forward sensitivities are computed for the
first `nfwd` directions, and adjoint directions with a nonzero seed
accumulate into their sensitivity buffers.  Returns (output, forward
sensitivities, adjoint sensitivities). -/
def Norm1.evaluate (x : List D) (out0 : D) (fwdSeed : List (List D))
    (fwdSens0 : List D) (adjSeed : List D) (adjSens0 : List (List D))
    (nfwd nadj : Nat) : D × List D × List (List D) :=
  if nfwd = 0 ∧ nadj = 0 then (norm1Value x, fwdSens0, adjSens0)
  else
    let fwdSens1 := idxMap (fun d v =>
      if d < nfwd then norm1FwdDir x (fwdSeed.getD d []) else v) 0 fwdSens0
    let adjSens1 := idxMap (fun d a =>
      if d < nadj then
        (if D.deq (adjSeed.getD d (D.num 0)) (D.num 0) then a
         else norm1AdjDir x (adjSeed.getD d (D.num 0)) a)
      else a) 0 adjSens0
    (out0, fwdSens1, adjSens1)

/-- The squared-sum accumulation shared by `Norm2::evaluate` and
`Norm22::evaluate` (norm.cpp lines 60-63 and 106-109). -/
def norm2Squares (x : List D) : D :=
  x.foldl (fun acc xk => D.dadd acc (D.dmul xk xk)) (D.num 0)

/-- `Norm2::evaluate` (norm.cpp lines 56-82).  The output is the square
root (an external libm call, passed as a parameter) of the squared sum;
forward directions accumulate `x_k/out * seed_k`; adjoint directions
with a nonzero scalar seed add `x_k/out * s` into each sensitivity
entry, and directions with a zero seed are skipped. -/
def Norm2.evaluate (dsqrt : D → D) (x : List D) (fwdSeed : List (List D))
    (fwdSens0 : List D) (adjSeed : List D) (adjSens0 : List (List D))
    (nfwd nadj : Nat) : D × List D × List (List D) :=
  let out := dsqrt (norm2Squares x)
  let fwdSens1 := idxMap (fun d v =>
    if d < nfwd then
      (x.zip (fwdSeed.getD d [])).foldl
        (fun acc p => D.dadd acc (D.dmul (D.ddiv p.1 out) p.2)) (D.num 0)
    else v) 0 fwdSens0
  let adjSens1 := idxMap (fun d a =>
    if d < nadj then
      (if D.deq (adjSeed.getD d (D.num 0)) (D.num 0) then a
       else ((x.zip a).map (fun p =>
         D.dadd p.2 (D.dmul (D.ddiv p.1 out) (adjSeed.getD d (D.num 0))))) ++ a.drop x.length)
    else a) 0 adjSens0
  (out, fwdSens1, adjSens1)

/-- `Norm22::evaluate` (norm.cpp lines 102-128).  The output is the
squared sum itself; forward directions accumulate `2*x_k * seed_k`;
adjoint directions with a nonzero scalar seed add `2*x_k * s` into each
sensitivity entry, and directions with a zero seed are skipped. -/
def Norm22.evaluate (x : List D) (fwdSeed : List (List D))
    (fwdSens0 : List D) (adjSeed : List D) (adjSens0 : List (List D))
    (nfwd nadj : Nat) : D × List D × List (List D) :=
  let out := norm2Squares x
  let fwdSens1 := idxMap (fun d v =>
    if d < nfwd then
      (x.zip (fwdSeed.getD d [])).foldl
        (fun acc p => D.dadd acc (D.dmul (D.dmul (D.num 2) p.1) p.2)) (D.num 0)
    else v) 0 fwdSens0
  let adjSens1 := idxMap (fun d a =>
    if d < nadj then
      (if D.deq (adjSeed.getD d (D.num 0)) (D.num 0) then a
       else ((x.zip a).map (fun p =>
         D.dadd p.2 (D.dmul (D.dmul (D.num 2) p.1) (adjSeed.getD d (D.num 0))))) ++ a.drop x.length)
    else a) 0 adjSens0
  (out, fwdSens1, adjSens1)

/-- The value accumulation of `NormInf::evaluate` (norm.cpp lines
206-212), exactly as written: the running maximum starts at POSITIVE
infinity (`temp=std::numeric_limits<double>::infinity()`) and is
replaced whenever an absolute value compares strictly greater. -/
def normInfValue (x : List D) : D :=
  x.foldl (fun t xk => if D.dgt (D.dabs xk) t then D.dabs xk else t) D.pinf

/-- `NormInf::evaluate` (norm.cpp lines 202-216): the output scalar is
written with the accumulated value, then the call throws
`CasadiException` when any adjoint direction was requested.  Forward
seed and sensitivity buffers are never touched. -/
def NormInf.evaluate (x : List D) (nfwd nadj : Nat) : Except String D :=
  let out := normInfValue x
  if nadj ≠ 0 then Except.error "NormInf evaluate not implemented"
  else Except.ok out

/-! ## Helper lemmas -/

theorem idxMap_length {α : Type} (f : Nat → α → α) :
    ∀ (s : Nat) (l : List α), (idxMap f s l).length = l.length
  | _, [] => rfl
  | s, _ :: l => congrArg Nat.succ (idxMap_length f (s + 1) l)

theorem idxMap_getD {α : Type} (f : Nat → α → α) :
    ∀ (s : Nat) (l : List α) (i : Nat) (dflt : α),
      (idxMap f s l).getD i dflt
        = if i < l.length then f (s + i) (l.getD i dflt) else dflt := by
  intro s l
  induction l generalizing s with
  | nil => intro i dflt; simp [idxMap]
  | cons a l ih =>
    intro i dflt
    cases i with
    | zero => simp [idxMap]
    | succ i =>
      have h := ih (s + 1) i dflt
      simp only [idxMap, List.getD_cons_succ, List.length_cons, h]
      have hn : s + 1 + i = s + (i + 1) := by omega
      by_cases hi : i < l.length
      · simp [hi, Nat.succ_lt_succ_iff, hn]
      · simp [hi, Nat.succ_lt_succ_iff]

theorem getD_set_self {α : Type} (l : List α) (i : Nat) (a d : α) (h : i < l.length) :
    (l.set i a).getD i d = a := by
  rw [List.getD_eq_getElem _ _ (by simpa using h)]
  exact List.getElem_set_self _

theorem getD_set_ne {α : Type} (l : List α) (i j : Nat) (a d : α) (h : i ≠ j) :
    (l.set i a).getD j d = l.getD j d := by
  by_cases hj : j < l.length
  · rw [List.getD_eq_getElem _ _ (by simpa using hj), List.getD_eq_getElem _ _ hj]
    exact List.getElem_set_ne h _
  · rw [List.getD_eq_default _ _ (by simpa using Nat.le_of_not_lt hj),
      List.getD_eq_default _ _ (Nat.le_of_not_lt hj)]

theorem gatherNZ_length {α : Type} (zero : α) (nz : List Int) (idata : List α) :
    (gatherNZ zero nz idata).length = nz.length :=
  List.length_map _ _

theorem gatherNZ_getD {α : Type} (zero : α) (nz : List Int) (idata : List α)
    (i : Nat) (h : i < nz.length) :
    (gatherNZ zero nz idata).getD i zero
      = if 0 ≤ nz.getD i 0 then idata.getD (nz.getD i 0).toNat zero else zero := by
  unfold gatherNZ
  rw [List.getD_eq_getElem _ _ (by simpa using h), List.getElem_map,
    List.getD_eq_getElem _ _ h]

/-- Total contribution scattered into accumulator slot `j`: the fold of
the seed entries whose mapping entry equals `j`, in traversal order. -/
def opContrib {α : Type} (op : α → α → α) (e : α) (nz : List Int)
    (seed : List α) (j : Nat) : α :=
  (((nz.zip seed).filter (fun p => p.1 == (j : Int))).map Prod.snd).foldr op e

theorem scatterOp_seed {α : Type} (op : α → α → α) (e : α) :
    ∀ (nz : List Int) (seed sens : List α), seed.length = nz.length →
      (scatterOp op e nz seed sens).1 = List.replicate nz.length e := by
  intro nz
  induction nz with
  | nil =>
    intro seed sens h
    rw [List.length_eq_zero.mp h]
    rfl
  | cons k nz ih =>
    intro seed sens h
    cases seed with
    | nil => simp at h
    | cons s seed =>
      simp only [scatterOp, List.replicate_succ]
      exact congrArg (e :: ·) (ih seed _ (by simpa using h))

theorem scatterOp_sens_length {α : Type} (op : α → α → α) (e : α) :
    ∀ (nz : List Int) (seed sens : List α),
      ((scatterOp op e nz seed sens).2).length = sens.length := by
  intro nz
  induction nz with
  | nil => intro seed sens; rfl
  | cons k nz ih =>
    intro seed sens
    cases seed with
    | nil => rfl
    | cons s seed =>
      simp only [scatterOp]
      rw [ih]
      by_cases hk : 0 ≤ k <;> simp [hk]

theorem scatterOp_sens_getD {α : Type} (op : α → α → α) (e : α)
    (hassoc : ∀ a b c, op (op a b) c = op a (op b c))
    (hid : ∀ a, op a e = a) :
    ∀ (nz : List Int) (seed sens : List α),
      (∀ k ∈ nz, 0 ≤ k → k.toNat < sens.length) →
      nz.length ≤ seed.length →
      ∀ j, j < sens.length →
        ((scatterOp op e nz seed sens).2).getD j e
          = op (sens.getD j e) (opContrib op e nz seed j) := by
  intro nz
  induction nz with
  | nil =>
    intro seed sens _ _ j _
    simp [scatterOp, opContrib, hid]
  | cons k nz ih =>
    intro seed sens hrange hlen j hj
    cases seed with
    | nil => simp at hlen
    | cons s seed =>
      have hrangetail : ∀ k' ∈ nz, 0 ≤ k' → k'.toNat <
          (if 0 ≤ k then sens.set k.toNat (op (sens.getD k.toNat e) s) else sens).length := by
        intro k' hk' hk'0
        have := hrange k' (List.mem_cons_of_mem _ hk') hk'0
        by_cases hk : 0 ≤ k <;> simp [hk, this]
      have hlentail : nz.length ≤ seed.length := by simpa using hlen
      have hcontrib : opContrib op e (k :: nz) (s :: seed) j
          = if k == (j : Int) then op s (opContrib op e nz seed j)
            else opContrib op e nz seed j := by
        simp only [opContrib, List.zip_cons_cons, List.filter_cons]
        by_cases hkj : k == (j : Int) <;> simp [hkj]
      simp only [scatterOp]
      by_cases hk : 0 ≤ k
      · by_cases hkj : k.toNat = j
        · have hksens : k.toNat < sens.length := hrange k (List.mem_cons_self _ _) hk
          have hkeq : k == (j : Int) := by
            have : k = (j : Int) := by
              rw [← hkj]; exact (Int.toNat_of_nonneg hk).symm
            simp [this]
          rw [ih _ _ (by simpa [hk] using hrangetail) hlentail j
              (by simp [hk, hksens, hj])]
          simp only [hk, if_true]
          rw [hkj, getD_set_self _ _ _ _ (hkj ▸ hksens), hcontrib, hassoc]
          simp [hkeq]
        · have hkne : ¬(k == (j : Int)) := by
            intro hcon
            exact hkj (by simp at hcon; rw [hcon]; exact Int.toNat_natCast j)
          rw [ih _ _ (by simpa [hk] using hrangetail) hlentail j
              (by simp [hk, hj])]
          simp only [hk, if_true]
          rw [getD_set_ne _ _ _ _ _ hkj, hcontrib]
          simp [hkne]
      · have hkne : ¬(k == (j : Int)) := by
          intro hcon
          simp at hcon
          rw [hcon] at hk
          exact hk (Int.ofNat_nonneg j)
        rw [ih _ _ (by simpa [hk] using hrangetail) hlentail j (by simp [hk, hj])]
        simp only [hk, if_false]
        rw [hcontrib]
        simp [hkne]

theorem addScatterNZ_eq_scatterOp {α : Type} (add : α → α → α) (zero : α) :
    ∀ (nz : List Int) (seed sens : List α),
      addScatterNZ add zero nz seed sens = scatterOp add zero nz seed sens
  | [], _, _ => rfl
  | _ :: _, [], _ => rfl
  | k :: nz, s :: seed, sens => by
    simp only [addScatterNZ, scatterOp]
    rw [addScatterNZ_eq_scatterOp add zero nz seed _]

theorem propagateSparsityRev_eq_scatterOp :
    ∀ (nz : List Int) (outputd inputd : List Nat),
      GetNonzeros.propagateSparsityRev nz outputd inputd
        = scatterOp Nat.lor 0 nz outputd inputd
  | [], _, _ => rfl
  | _ :: _, [], _ => rfl
  | k :: nz, o :: outputd, inputd => by
    simp only [GetNonzeros.propagateSparsityRev, scatterOp]
    rw [propagateSparsityRev_eq_scatterOp nz outputd _]

theorem nzCountsFrom_iff :
    ∀ (nz : List Int) (s : Nat),
      nzCountsFrom nz s = true ↔ ∀ i, i < nz.length → nz.getD i 0 = ((s + i : Nat) : Int) := by
  intro nz
  induction nz with
  | nil => intro s; simp [nzCountsFrom]
  | cons k nz ih =>
    intro s
    simp only [nzCountsFrom, Bool.and_eq_true, beq_iff_eq, ih (s + 1)]
    constructor
    · rintro ⟨hk, h⟩ i hi
      cases i with
      | zero => simpa using hk
      | succ i =>
        have := h i (by simpa using hi)
        simp only [List.getD_cons_succ]
        rw [this]
        congr 1
        omega
    · intro h
      refine ⟨by simpa using h 0 (by simp), fun i hi => ?_⟩
      have := h (i + 1) (by simpa using hi)
      simp only [List.getD_cons_succ] at this
      rw [this]
      congr 1
      omega

theorem gatherNZ_countsFrom {α : Type} (zero : α) :
    ∀ (nz : List Int) (s : Nat) (x : List α),
      nzCountsFrom nz s = true → x.length = s + nz.length →
      gatherNZ zero nz x = x.drop s := by
  intro nz
  induction nz with
  | nil =>
    intro s x _ hl
    simp only [List.length_nil, Nat.add_zero] at hl
    simp only [gatherNZ, List.map_nil]
    exact (List.drop_eq_nil_of_le (by omega)).symm
  | cons k nz ih =>
    intro s x hc hl
    simp only [nzCountsFrom, Bool.and_eq_true, beq_iff_eq] at hc
    obtain ⟨hk, hc⟩ := hc
    have hs : s < x.length := by simp at hl; omega
    simp only [gatherNZ, List.map_cons]
    rw [List.drop_eq_getElem_cons hs]
    congr 1
    · rw [hk]
      simp only [Int.ofNat_nonneg, if_true, Int.toNat_natCast]
      exact List.getD_eq_getElem _ _ hs
    · have := ih (s + 1) x hc (by simp at hl ⊢; omega)
      simpa [gatherNZ] using this

theorem evaluateMXCount_ok_iff :
    ∀ (nz : List Int) (cnt : List Nat),
      (GetNonzeros.evaluateMXCount nz cnt).isOk = true ↔ ∀ k ∈ nz, 0 ≤ k := by
  intro nz
  induction nz with
  | nil => intro cnt; simp [GetNonzeros.evaluateMXCount, Except.isOk, Except.toBool]
  | cons k nz ih =>
    intro cnt
    by_cases hk : 0 ≤ k
    · simp [GetNonzeros.evaluateMXCount, hk, ih]
    · simp [GetNonzeros.evaluateMXCount, hk, Except.isOk, Except.toBool]

theorem evaluateMXCount_error :
    ∀ (nz : List Int) (cnt : List Nat), (∃ k ∈ nz, k < 0) →
      GetNonzeros.evaluateMXCount nz cnt = Except.error "Not implemented" := by
  intro nz
  induction nz with
  | nil => intro cnt h; simp at h
  | cons k nz ih =>
    intro cnt h
    by_cases hk : 0 ≤ k
    · have hex : ∃ k' ∈ nz, k' < 0 := by
        rcases h with ⟨k', hk', hneg⟩
        rcases List.mem_cons.mp hk' with rfl | hmem
        · omega
        · exact ⟨k', hmem, hneg⟩
      simp [GetNonzeros.evaluateMXCount, hk, ih _ hex]
    · simp [GetNonzeros.evaluateMXCount, hk]

/-! ## Claims -/

/-- C2: for every generic gather node with index mapping nz and every
dependency data vector, numeric evaluation writes, at each output
position i, dep.data at nz i when nz i is nonnegative and zero when it
is the absent sentinel; and every forward direction applies the same
gather to that direction's forward seed data.  Stated polymorphically,
as the C++ evaluation is a template over the scalar type. -/
theorem claim_C2 {α : Type} (add : α → α → α) (zero : α)
    (nz : List Int) (idata : List α)
    (fwdSeed fwdSens0 adjSeed adjSens0 : List (List α)) :
    ((GetNonzeros.evaluateGen add zero nz idata fwdSeed fwdSens0 adjSeed adjSens0).output.length
        = nz.length)
    ∧ (∀ i, i < nz.length →
        (GetNonzeros.evaluateGen add zero nz idata fwdSeed fwdSens0 adjSeed adjSens0).output.getD i zero
          = if 0 ≤ nz.getD i 0 then idata.getD (nz.getD i 0).toNat zero else zero)
    ∧ (∀ d, d < fwdSens0.length →
        (GetNonzeros.evaluateGen add zero nz idata fwdSeed fwdSens0 adjSeed adjSens0).fwdSens.getD d []
          = gatherNZ zero nz (fwdSeed.getD d []))
    ∧ (∀ d i, d < fwdSens0.length → i < nz.length →
        ((GetNonzeros.evaluateGen add zero nz idata fwdSeed fwdSens0 adjSeed adjSens0).fwdSens.getD d []).getD i zero
          = if 0 ≤ nz.getD i 0 then (fwdSeed.getD d []).getD (nz.getD i 0).toNat zero else zero) := by
  refine ⟨gatherNZ_length zero nz idata, fun i hi => gatherNZ_getD zero nz idata i hi, ?_, ?_⟩
  · intro d hd
    show (idxMap _ 0 fwdSens0).getD d [] = _
    rw [idxMap_getD]
    simp [hd]
  · intro d i hd hi
    show ((idxMap _ 0 fwdSens0).getD d []).getD i zero = _
    rw [idxMap_getD]
    simp only [hd, if_true, Nat.zero_add]
    exact gatherNZ_getD zero nz (fwdSeed.getD d []) i hi

/-- Witness for C2 at a concrete gather: nz = [1,-1,0] over integer
data [10,20] with one forward direction. -/
theorem claim_C2_witness :
    (0 < ([1, -1, 0] : List Int).length)
    ∧ (GetNonzeros.evaluateGen (fun a b : Int => a + b) 0 [1, -1, 0] [10, 20]
          [[7, 8]] [[0, 0, 0]] [] []).output.getD 0 0
        = (if 0 ≤ ([1, -1, 0] : List Int).getD 0 0
            then ([10, 20] : List Int).getD (([1, -1, 0] : List Int).getD 0 0).toNat 0 else 0)
    ∧ (GetNonzeros.evaluateGen (fun a b : Int => a + b) 0 [1, -1, 0] [10, 20]
          [[7, 8]] [[0, 0, 0]] [] []).fwdSens.getD 0 []
        = gatherNZ 0 [1, -1, 0] (([[7, 8]] : List (List Int)).getD 0 []) :=
  ⟨by decide,
    (claim_C2 (fun a b : Int => a + b) 0 [1, -1, 0] [10, 20] [[7, 8]] [[0, 0, 0]] [] []).2.1
      0 (by decide),
    (claim_C2 (fun a b : Int => a + b) 0 [1, -1, 0] [10, 20] [[7, 8]] [[0, 0, 0]] [] []).2.2.1
      0 (by decide)⟩

/-- C3: numeric adjoint propagation of the generic gather adds, for
each output position i with a valid mapping entry, the adjoint seed at
i into the dependency sensitivity accumulator at index nz i (absent
positions are discarded), then zeroes the whole seed buffer; and the
end-to-end scenario nz=[1,-1,0], x=[10,20], adjoint seed [5,7,9]
yields output [20,0,10], accumulated sensitivities [9,5] and a cleared
seed. -/
theorem claim_C3 {α : Type} [AddMonoid α] (nz : List Int) (aseed asens : List α)
    (hlen : aseed.length = nz.length)
    (hrange : ∀ k ∈ nz, 0 ≤ k → k.toNat < asens.length) :
    ((addScatterNZ (fun a b => a + b) 0 nz aseed asens).1 = List.replicate nz.length 0)
    ∧ (∀ j, j < asens.length →
        ((addScatterNZ (fun a b => a + b) 0 nz aseed asens).2).getD j 0
          = asens.getD j 0 + opContrib (fun a b => a + b) 0 nz aseed j)
    ∧ (GetNonzeros.evaluateGen (fun a b : ℚ => a + b) 0 [1, -1, 0] [10, 20] [] []
          [[5, 7, 9]] [[0, 0]]
        = ⟨[20, 0, 10], [], [[0, 0, 0]], [[9, 5]]⟩) := by
  rw [addScatterNZ_eq_scatterOp]
  refine ⟨scatterOp_seed _ _ nz aseed asens hlen, ?_, ?_⟩
  · intro j hj
    exact scatterOp_sens_getD _ _ (fun a b c => add_assoc a b c) (fun a => add_zero a)
      nz aseed asens hrange (le_of_eq hlen.symm) j hj
  · norm_num [GetNonzeros.evaluateGen, gatherNZ, addScatterNZ, idxMap]

/-- Witness for C3 at the claim's own scenario, instantiated at the
integers: nz = [1,-1,0], seed [5,7,9], accumulator [0,0]. -/
theorem claim_C3_witness :
    (([5, 7, 9] : List Int).length = ([1, -1, 0] : List Int).length)
    ∧ (∀ k ∈ ([1, -1, 0] : List Int), 0 ≤ k → k.toNat < ([0, 0] : List Int).length)
    ∧ (addScatterNZ (fun a b : Int => a + b) 0 [1, -1, 0] [5, 7, 9] [0, 0]).1
        = List.replicate 3 0 := by
  have h := claim_C3 (α := Int) [1, -1, 0] [5, 7, 9] [0, 0] (by decide) (by decide)
  exact ⟨by decide, by decide, h.1⟩

/-- C4 (amended): when every entry of the requested (inner) mapping is
a valid nonnegative index into this node's own (outer) mapping,
building a gather of a gather produces the single flattened mapping
whose entry at i is the outer entry at the inner entry at i — entries
of the OUTER mapping may be absent and flow into the flattened mapping
— and evaluating the flattened gather equals evaluating the two
gathers in sequence, for every data vector.  (As originally stated,
with absent entries allowed in the inner mapping too, the claim fails:
see the counterexample.) -/
theorem claim_C4 (nzOuter nzInner : List Int)
    (hvalid : ∀ j ∈ nzInner, 0 ≤ j ∧ j.toNat < nzOuter.length) :
    (GetNonzeros.getGetNonzeros nzOuter nzInner
      = some (nzInner.map (fun j => nzOuter.getD j.toNat 0)))
    ∧ ∀ {α : Type} (zero : α) (x : List α),
        gatherNZ zero (nzInner.map (fun j => nzOuter.getD j.toNat 0)) x
          = gatherNZ zero nzInner (gatherNZ zero nzOuter x) := by
  constructor
  · induction nzInner with
    | nil => rfl
    | cons j rest ih =>
      have hj := hvalid j (List.mem_cons_self _ _)
      have hrest := ih (fun j' hj' => hvalid j' (List.mem_cons_of_mem _ hj'))
      simp only [GetNonzeros.getGetNonzeros, hj, and_self, if_true, hrest, List.map_cons]
  · intro α zero x
    induction nzInner with
    | nil => rfl
    | cons j rest ih =>
      have hj := hvalid j (List.mem_cons_self _ _)
      have hrest := ih (fun j' hj' => hvalid j' (List.mem_cons_of_mem _ hj'))
      simp only [List.map_cons, gatherNZ] at hrest ⊢
      rw [hrest]
      congr 1
      rw [if_pos hj.1]
      have := gatherNZ_getD zero nzOuter x j.toNat hj.2
      simp only [gatherNZ] at this
      rw [this]

/-- Counterexample for C4 as stated: with the absent sentinel in the
inner mapping (outer mapping [0], inner mapping [-1]) the construction
reads the outer index table out of bounds — no flattened mapping is
produced — although evaluating the two gathers in sequence is well
defined and yields [0]. -/
theorem claim_C4_cex :
    GetNonzeros.getGetNonzeros [0] [-1] = none
    ∧ gatherNZ (0 : ℚ) [-1] (gatherNZ 0 [0] [5]) = [0] :=
  ⟨rfl, by decide⟩

/-- Witness for C4 at a concrete pair of mappings with an absent entry
in the outer mapping: outer [2,-1,0], inner [1,0,2]. -/
theorem claim_C4_witness :
    (∀ j ∈ ([1, 0, 2] : List Int), 0 ≤ j ∧ j.toNat < ([2, -1, 0] : List Int).length)
    ∧ (GetNonzeros.getGetNonzeros [2, -1, 0] [1, 0, 2]
        = some (([1, 0, 2] : List Int).map (fun j => ([2, -1, 0] : List Int).getD j.toNat 0)))
    ∧ gatherNZ (0 : Int) (([1, 0, 2] : List Int).map (fun j => ([2, -1, 0] : List Int).getD j.toNat 0)) [10, 20, 30]
        = gatherNZ 0 [1, 0, 2] (gatherNZ 0 [2, -1, 0] [10, 20, 30]) := by
  have h := claim_C4 [2, -1, 0] [1, 0, 2] (by decide)
  exact ⟨by decide, h.1, h.2 0 [10, 20, 30]⟩

/-- C6: isIdentity returns true exactly when the output sparsity
pattern equals the dependency's pattern and every mapping entry equals
its own position; and whenever it returns true, the gather maps every
dependency data vector (one datum per dependency nonzero, which by the
pattern equality is the mapping length) to itself. -/
theorem claim_C6 (g : GetNonzerosNode) :
    (GetNonzeros.isIdentity g = true
      ↔ (g.sp = g.depSp ∧ ∀ i, i < g.nz.length → g.nz.getD i 0 = (i : Int)))
    ∧ (GetNonzeros.isIdentity g = true →
        ∀ {α : Type} (zero : α) (x : List α), x.length = g.nz.length →
          gatherNZ zero g.nz x = x) := by
  constructor
  · unfold GetNonzeros.isIdentity
    by_cases hsp : g.sp = g.depSp
    · simp only [hsp, if_true, nzCountsFrom_iff, true_and]
      constructor
      · intro h i hi
        simpa using h i hi
      · intro h i hi
        simpa using h i hi
    · simp [hsp]
  · intro hid α zero x hx
    have hcount : nzCountsFrom g.nz 0 = true := by
      unfold GetNonzeros.isIdentity at hid
      by_cases hsp : g.sp = g.depSp
      · simpa [hsp] using hid
      · simp [hsp] at hid
    have := gatherNZ_countsFrom zero g.nz 0 x hcount (by omega)
    simpa using this

/-- Witness for C6 at a concrete identity node: a 1x2 dense pattern on
both sides with mapping [0,1], applied to the integer vector [7,9]. -/
theorem claim_C6_witness :
    GetNonzeros.isIdentity ⟨⟨1, 2, [0, 1], [0, 2]⟩, ⟨1, 2, [0, 1], [0, 2]⟩, [0, 1]⟩ = true
    ∧ gatherNZ (0 : Int) [0, 1] [7, 9] = [7, 9] := by
  have h := claim_C6 ⟨⟨1, 2, [0, 1], [0, 2]⟩, ⟨1, 2, [0, 1], [0, 2]⟩, [0, 1]⟩
  have hid : GetNonzeros.isIdentity
      ⟨⟨1, 2, [0, 1], [0, 2]⟩, ⟨1, 2, [0, 1], [0, 2]⟩, [0, 1]⟩ = true := by decide
  exact ⟨hid, h.2 hid 0 [7, 9] (by decide)⟩

/-- C8: the structural sparsity-bit pass uses the very same index
mapping as numeric evaluation: the forward bit pass coincides with the
numeric gather loop, the reverse bit pass and the numeric adjoint loop
are the same generic scatter instantiated at bitwise-or and at
addition respectively; positionwise, forward sets output bit i from
input bit nz i (0 when absent), and the reverse pass OR-accumulates
output bit i into input bit nz i for valid entries and clears every
output bit. -/
theorem claim_C8 :
    (∀ (nz : List Int) (inputd : List Nat),
        GetNonzeros.propagateSparsityFwd nz inputd = gatherNZ 0 nz inputd)
    ∧ (∀ (nz : List Int) (outputd inputd : List Nat),
        GetNonzeros.propagateSparsityRev nz outputd inputd
          = scatterOp Nat.lor 0 nz outputd inputd)
    ∧ (∀ {α : Type} (add : α → α → α) (zero : α) (nz : List Int) (seed sens : List α),
        addScatterNZ add zero nz seed sens = scatterOp add zero nz seed sens)
    ∧ (∀ (nz : List Int) (inputd : List Nat) (i : Nat), i < nz.length →
        (GetNonzeros.propagateSparsityFwd nz inputd).getD i 0
          = if 0 ≤ nz.getD i 0 then inputd.getD (nz.getD i 0).toNat 0 else 0)
    ∧ (∀ (nz : List Int) (outputd inputd : List Nat),
        outputd.length = nz.length →
        (∀ k ∈ nz, 0 ≤ k → k.toNat < inputd.length) →
        ((GetNonzeros.propagateSparsityRev nz outputd inputd).1
            = List.replicate nz.length 0
        ∧ ∀ j, j < inputd.length →
            ((GetNonzeros.propagateSparsityRev nz outputd inputd).2).getD j 0
              = Nat.lor (inputd.getD j 0) (opContrib Nat.lor 0 nz outputd j))) := by
  refine ⟨fun nz inputd => rfl, propagateSparsityRev_eq_scatterOp,
    fun {α} add zero nz seed sens => addScatterNZ_eq_scatterOp add zero nz seed sens,
    ?_, ?_⟩
  · intro nz inputd i hi
    exact gatherNZ_getD 0 nz inputd i hi
  · intro nz outputd inputd hlen hrange
    rw [propagateSparsityRev_eq_scatterOp]
    refine ⟨scatterOp_seed _ _ nz outputd inputd hlen, fun j hj => ?_⟩
    exact scatterOp_sens_getD Nat.lor 0 (fun a b c => Nat.lor_assoc a b c)
      (fun a => Nat.or_zero a) nz outputd inputd hrange (le_of_eq hlen.symm) j hj

/-- Witness for C8 at a concrete mapping nz = [1,-1,0] with input bits
[1,2] and output bits [4,5,6]. -/
theorem claim_C8_witness :
    (0 < ([1, -1, 0] : List Int).length)
    ∧ (GetNonzeros.propagateSparsityFwd [1, -1, 0] [1, 2]).getD 0 0
        = (if 0 ≤ ([1, -1, 0] : List Int).getD 0 0
            then ([1, 2] : List Nat).getD (([1, -1, 0] : List Int).getD 0 0).toNat 0 else 0)
    ∧ (([4, 5, 6] : List Nat).length = ([1, -1, 0] : List Int).length)
    ∧ (GetNonzeros.propagateSparsityRev [1, -1, 0] [4, 5, 6] [1, 2]).1
        = List.replicate 3 0 := by
  have h := claim_C8
  exact ⟨by decide, h.2.2.2.1 [1, -1, 0] [1, 2] 0 (by decide), by decide,
    (h.2.2.2.2 [1, -1, 0] [4, 5, 6] [1, 2] (by decide) (by decide)).1⟩

theorem idxMap_getD_of_fix {α : Type} (f : Nat → α → α) (l : List α) (d : Nat) (dflt : α)
    (hf : f d (l.getD d dflt) = l.getD d dflt) :
    (idxMap f 0 l).getD d dflt = l.getD d dflt := by
  rw [idxMap_getD]
  by_cases hd : d < l.length
  · simpa [hd] using hf
  · simp only [hd, if_false]
    exact (List.getD_eq_default _ _ (Nat.le_of_not_lt hd)).symm

theorem dlt_pinf_right_false (b : D) : D.dlt D.pinf b = false := by
  cases b <;> rfl

/-- C1 (evaluating the code at the failing input): the infinity-norm
value accumulator starts at positive infinity and the strictly-greater
update can then never fire, so the computed value is positive infinity
for EVERY input — at the one-nonzero input x = [3] the code returns
positive infinity where the claim requires the maximum absolute value,
3. -/
theorem claim_C1 :
    (∀ x : List D, normInfValue x = D.pinf)
    ∧ NormInf.evaluate [D.num 3] 0 0 = Except.ok D.pinf
    ∧ D.pinf ≠ D.num 3 := by
  have hval : ∀ x : List D, normInfValue x = D.pinf := by
    intro x
    induction x with
    | nil => rfl
    | cons a x ih =>
      show List.foldl _ _ (a :: x) = D.pinf
      rw [List.foldl_cons]
      have hstep : (if D.dgt (D.dabs a) D.pinf then D.dabs a else D.pinf) = D.pinf := by
        simp [D.dgt, dlt_pinf_right_false]
      rw [hstep]
      exact ih
  refine ⟨hval, ?_, by decide⟩
  simp [NormInf.evaluate, hval]

/-- C5 (evaluating the code at the failing input): in a single Norm1
evaluation with one adjoint direction and seed 2 on x = [-2,0,3], the
adjoint sensitivities [-2, nan, 2] are accumulated as the claim says,
but the output scalar is never written (it keeps its prior content, 0
here) because the value branch only runs with no derivative
directions; a separate derivative-free evaluation of the same node does
produce the value 5. -/
theorem claim_C5 :
    Norm1.evaluate [D.num (-2), D.num 0, D.num 3] (D.num 0) [] [] [D.num 2]
        [[D.num 0, D.num 0, D.num 0]] 0 1
      = (D.num 0, [], [[D.num (-2), D.nan, D.num 2]])
    ∧ (Norm1.evaluate [D.num (-2), D.num 0, D.num 3] (D.num 0) [] [] [] [] 0 0).1
      = D.num 5 := by
  constructor
  · norm_num [Norm1.evaluate, norm1AdjDir, idxMap, D.dadd, D.dsub, D.dneg, D.dlt,
      D.dgt, D.deq]
  · norm_num [Norm1.evaluate, norm1Value, D.dadd, D.dabs]

/-- C7: the infinity-norm evaluation raises the fatal unsupported
condition exactly when the adjoint direction count is positive, and
with zero adjoint directions (whatever the forward count) it completes,
returning the accumulated value. -/
theorem claim_C7 (x : List D) (nfwd nadj : Nat) :
    (NormInf.evaluate x nfwd nadj = Except.error "NormInf evaluate not implemented"
      ↔ 0 < nadj)
    ∧ (NormInf.evaluate x nfwd nadj = Except.ok (normInfValue x) ↔ nadj = 0) := by
  unfold NormInf.evaluate
  by_cases h : nadj = 0
  · subst h; simp
  · simp [h, Nat.pos_of_ne_zero h]

/-- Witness for C7 at concrete direction counts 0 and 1 on x = [3]. -/
theorem claim_C7_witness :
    NormInf.evaluate [D.num 3] 5 1 = Except.error "NormInf evaluate not implemented"
    ∧ NormInf.evaluate [D.num 3] 5 0 = Except.ok (normInfValue [D.num 3]) :=
  ⟨(claim_C7 [D.num 3] 5 1).1.mpr (by decide),
    (claim_C7 [D.num 3] 5 0).2.mpr rfl⟩

/-- C9: for the 1-norm, 2-norm and squared 2-norm evaluations, an
adjoint direction whose incoming scalar seed is exactly zero leaves
that direction's sensitivity buffer completely unmodified. -/
theorem claim_C9 :
    (∀ (x : List D) (out0 : D) (fwdSeed : List (List D)) (fwdSens0 : List D)
        (adjSeed : List D) (adjSens0 : List (List D)) (nfwd nadj d : Nat),
        adjSeed.getD d (D.num 0) = D.num 0 →
        ((Norm1.evaluate x out0 fwdSeed fwdSens0 adjSeed adjSens0 nfwd nadj).2.2).getD d []
          = adjSens0.getD d [])
    ∧ (∀ (dsqrt : D → D) (x : List D) (fwdSeed : List (List D)) (fwdSens0 : List D)
        (adjSeed : List D) (adjSens0 : List (List D)) (nfwd nadj d : Nat),
        adjSeed.getD d (D.num 0) = D.num 0 →
        ((Norm2.evaluate dsqrt x fwdSeed fwdSens0 adjSeed adjSens0 nfwd nadj).2.2).getD d []
          = adjSens0.getD d [])
    ∧ (∀ (x : List D) (fwdSeed : List (List D)) (fwdSens0 : List D)
        (adjSeed : List D) (adjSens0 : List (List D)) (nfwd nadj d : Nat),
        adjSeed.getD d (D.num 0) = D.num 0 →
        ((Norm22.evaluate x fwdSeed fwdSens0 adjSeed adjSens0 nfwd nadj).2.2).getD d []
          = adjSens0.getD d []) := by
  refine ⟨?_, ?_, ?_⟩
  · intro x out0 fwdSeed fwdSens0 adjSeed adjSens0 nfwd nadj d hseed
    unfold Norm1.evaluate
    by_cases h0 : nfwd = 0 ∧ nadj = 0
    · simp [h0]
    · simp only [h0, if_false]
      apply idxMap_getD_of_fix
      rw [hseed]
      simp [D.deq]
  · intro dsqrt x fwdSeed fwdSens0 adjSeed adjSens0 nfwd nadj d hseed
    unfold Norm2.evaluate
    apply idxMap_getD_of_fix
    rw [hseed]
    simp [D.deq]
  · intro x fwdSeed fwdSens0 adjSeed adjSens0 nfwd nadj d hseed
    unfold Norm22.evaluate
    apply idxMap_getD_of_fix
    rw [hseed]
    simp [D.deq]

/-- Witness for C9: one adjoint direction with seed exactly zero, on
each of the three norm variants, leaves the sensitivity buffer [[7]]
untouched. -/
theorem claim_C9_witness :
    (([D.num 0] : List D).getD 0 (D.num 0) = D.num 0)
    ∧ ((Norm1.evaluate [D.num 1] (D.num 0) [] [] [D.num 0] [[D.num 7]] 0 1).2.2).getD 0 []
        = ([[D.num 7]] : List (List D)).getD 0 []
    ∧ ((Norm2.evaluate (fun v => v) [D.num 1] [] [] [D.num 0] [[D.num 7]] 0 1).2.2).getD 0 []
        = ([[D.num 7]] : List (List D)).getD 0 []
    ∧ ((Norm22.evaluate [D.num 1] [] [] [D.num 0] [[D.num 7]] 0 1).2.2).getD 0 []
        = ([[D.num 7]] : List (List D)).getD 0 [] := by
  have h := claim_C9
  exact ⟨by decide,
    h.1 [D.num 1] (D.num 0) [] [] [D.num 0] [[D.num 7]] 0 1 0 (by decide),
    h.2.1 (fun v => v) [D.num 1] [] [] [D.num 0] [[D.num 7]] 0 1 0 (by decide),
    h.2.2 [D.num 1] [] [] [D.num 0] [[D.num 7]] 0 1 0 (by decide)⟩

/-- C10: the symbolic-differentiation entry of the generic gather
asserts, in its very first loop over the mapping — before any
derivative node is constructed — that every mapping entry is
nonnegative, failing with the "Not implemented" assertion otherwise;
numeric evaluation of the same node meanwhile yields a plain zero at
any absent position. -/
theorem claim_C10 (nz : List Int) (ninz : Nat) (x : List ℚ) :
    ((∃ k ∈ nz, k < 0) →
        GetNonzeros.evaluateMXPrep nz ninz = Except.error "Not implemented")
    ∧ ((GetNonzeros.evaluateMXPrep nz ninz).isOk = true ↔ ∀ k ∈ nz, 0 ≤ k)
    ∧ (∀ i, i < nz.length → nz.getD i 0 < 0 →
        (gatherNZ (0 : ℚ) nz x).getD i 0 = 0) := by
  refine ⟨?_, ?_, ?_⟩
  · intro hex
    unfold GetNonzeros.evaluateMXPrep
    rw [evaluateMXCount_error nz _ hex]
    rfl
  · rw [← evaluateMXCount_ok_iff nz (List.replicate (ninz + 1) 0)]
    unfold GetNonzeros.evaluateMXPrep
    cases hc : GetNonzeros.evaluateMXCount nz (List.replicate (ninz + 1) 0) with
    | error e => simp [Except.isOk, Except.toBool, Bind.bind, Except.bind]
    | ok c => simp [Except.isOk, Except.toBool, Bind.bind, Except.bind]
  · intro i hi hneg
    rw [gatherNZ_getD 0 nz x i hi, if_neg (by omega)]

/-- Witness for C10 at the one-entry absent mapping [-1]. -/
theorem claim_C10_witness :
    (∃ k ∈ ([-1] : List Int), k < 0)
    ∧ GetNonzeros.evaluateMXPrep [-1] 0 = Except.error "Not implemented"
    ∧ (0 < ([-1] : List Int).length)
    ∧ (([-1] : List Int).getD 0 0 < 0)
    ∧ (gatherNZ (0 : ℚ) [-1] []).getD 0 0 = 0 := by
  have h := claim_C10 [-1] 0 []
  exact ⟨by decide, h.1 (by decide), by decide, by decide,
    h.2.2 0 (by decide) (by decide)⟩
